import Mathlib

/-!
Verification of the tree-reconciliation layer (rich-text `toDom` / `applyValue`),
the inserter search (`searchItems`) and the layout attribute filter
(`addAttribute`) of this repository.

The reconciler itself (`packages/rich-text/src/to-dom.js`) ships here only
through its test file, so the builder and the patcher below are modelled from
the design spec (sections 3, 4.1 and 4.2); `searchItems` and `addAttribute`
are embedded directly from `editor/components/inserter/menu.js` and the layout
block-support filter bundled with it.
-/

/-- Modelled from the spec: an attribute of an element node — a name, a string
value and an optional namespace (section 3, TreeNode). -/
structure Attr where
  name : String
  value : String
  ns : Option String := none
deriving DecidableEq, Repr

/-- Modelled from the spec: a host-tree node (section 3 and section 9): a text
node or an element node, carrying a numeric identity `nid` so that the
patcher's node-identity obligations are expressible. -/
inductive Node where
  | text (nid : Nat) (s : String)
  | elem (nid : Nat) (tag : String) (ns : Option String) (attrs : List Attr) (children : List Node)
deriving Repr

/-- Identity of a node. -/
def Node.nid : Node → Nat
  | .text n _ => n
  | .elem n _ _ _ _ => n

/-- Children of a node (a text node has none). -/
def Node.children : Node → List Node
  | .text _ _ => []
  | .elem _ _ _ _ ch => ch

/-- Modelled from the spec (section 4.2, step 3, for the missing
`applyValue`): reconcile attributes in place on the current node — keep each
current attribute that still exists in future (taking the future value),
drop current attributes absent from future, and append future attributes
missing on current. -/
def reconcileAttrs (future current : List Attr) : List Attr :=
  (current.filterMap fun a =>
    match future.find? (fun b => b.name = a.name) with
    | some b => some b
    | none => none) ++
  future.filter (fun b => (current.find? (fun a => a.name = b.name)).isNone)

mutual

/-- Modelled from the spec (section 4.2, steps 1-4, for the missing
`applyValue`): patch one current node against its positional future
counterpart. Matching text nodes keep their identity and take the future
content; matching elements (same tag) keep their identity, reconcile
attributes and recurse; on a kind or tag mismatch the already-built future
node replaces the current one. -/
def patchNode : Node → Node → Node
  | .text _ fs, .text cid _ => .text cid fs
  | .elem fid ft fns fa fch, .elem cid ct cns ca cch =>
    if ft = ct then .elem cid ct cns (reconcileAttrs fa ca) (patchChildren fch cch)
    else .elem fid ft fns fa fch
  | f, _ => f

/-- Modelled from the spec (section 4.2, step 4): index-aligned child diff —
future children beyond current's length are moved in as already-built nodes,
current children beyond future's length are dropped. -/
def patchChildren : List Node → List Node → List Node
  | [], _ => []
  | f :: fs, [] => f :: patchChildren fs []
  | f :: fs, c :: cs => patchNode f c :: patchChildren fs cs

end

/-- Modelled from the spec (section 4.2, for the missing `applyValue`): patch
the current root against the future root. The root node passed in keeps its
identity, tag and attributes; only its children are diffed. -/
def applyValue (future current : Node) : Node :=
  match future, current with
  | .elem _ _ _ _ fch, .elem cid ct cns ca cch => .elem cid ct cns ca (patchChildren fch cch)
  | _, c => c

/-- Movement accounting of the test harness (section 4.2, step 5): how many of
the pre-patch future children ended up as direct children of the patched
current root, identified by node identity. -/
def movedCount (futureChildren : List Node) (body : Node) : Nat :=
  (futureChildren.filter (fun f => (body.children.map Node.nid).contains f.nid)).length

/-- Serialize an attribute list the way `innerHTML` prints it. -/
def serializeAttrs : List Attr → String
  | [] => ""
  | a :: as => " " ++ a.name ++ "=\"" ++ a.value ++ "\"" ++ serializeAttrs as

mutual

/-- Serialize one node as markup. -/
def serializeNode : Node → String
  | .text _ s => s
  | .elem _ tag _ attrs ch =>
    "<" ++ tag ++ serializeAttrs attrs ++ ">" ++ serializeList ch ++ "</" ++ tag ++ ">"

/-- Serialize a child list as markup. -/
def serializeList : List Node → String
  | [] => ""
  | n :: ns => serializeNode n ++ serializeList ns

end

/-- The `innerHTML` of a node: its serialized children. -/
def innerHTML (n : Node) : String := serializeList n.children

/-- Modelled from the spec: the identity-free tree built by the missing
`toDom` (section 3, TreeNode): a text node, or an element with tag, optional
namespace, attributes and children. -/
inductive DomTree where
  | text (s : String)
  | elem (tag : String) (ns : Option String) (attrs : List Attr) (children : List DomTree)
deriving Repr

/-- Namespace of a built tree node (none for text nodes). -/
def DomTree.tagNs : DomTree → Option String
  | .text _ => none
  | .elem _ ns _ _ => ns

/-- Attributes of a built tree node. -/
def DomTree.attrsOf : DomTree → List Attr
  | .text _ => []
  | .elem _ _ attrs _ => attrs

/-- Children of a built tree node. -/
def DomTree.childrenOf : DomTree → List DomTree
  | .text _ => []
  | .elem _ _ _ ch => ch

/-- The SVG element namespace. -/
def svgNamespace : String := "http://www.w3.org/2000/svg"

/-- The XLink attribute namespace. -/
def xlinkNamespace : String := "http://www.w3.org/1999/xlink"

/-- Modelled from the spec (section 9): the static SVG-family tag list behind
namespace assignment. -/
def svgFamilyTags : List String :=
  ["svg", "use", "path", "circle", "rect", "g", "defs", "symbol",
   "ellipse", "line", "polygon", "polyline"]

/-- Modelled from the spec (sections 4.1 step 6 and 9): element namespace as a
pure function of the tag name. -/
def tagNamespace (tag : String) : Option String :=
  if svgFamilyTags.contains tag then some svgNamespace else none

/-- Modelled from the spec (sections 4.1 step 6 and 9): attribute namespace as
a pure function of the attribute name — an `xlink:`-prefixed name is tagged
with the XLink namespace. -/
def attrNamespace (name : String) : Option String :=
  if "xlink:".toList.isPrefixOf name.toList then some xlinkNamespace else none

/-- Turn a raw (name, value) pair into an attribute carrying its namespace. -/
def toAttr (p : String × String) : Attr :=
  { name := p.1, value := p.2, ns := attrNamespace p.1 }

/-- Deduplicate a raw attribute map by key, keeping the first occurrence: the
source attribute maps are JS objects, whose keys are unique by construction. -/
def dedupeAttrsAux (seen : List String) : List (String × String) → List (String × String)
  | [] => []
  | p :: ps =>
    if seen.contains p.1 then dedupeAttrsAux seen ps
    else p :: dedupeAttrsAux (p.1 :: seen) ps

/-- Build an element's attribute list from a raw attribute map. -/
def buildAttrs (l : List (String × String)) : List Attr :=
  (dedupeAttrsAux [] l).map toAttr

/-- The object-replacement sentinel character (U+FFFC) of the rich-text text
buffer. -/
def objectReplacementChar : Char := Char.ofNat 0xFFFC

/-- The line-separator character (U+2028) splitting multiline values. -/
def lineSeparatorChar : Char := Char.ofNat 0x2028

/-- Modelled from the spec (section 3): one inline formatting instruction — a
format tag name plus an attribute map. -/
structure FormatDesc where
  type : String
  attributes : List (String × String) := []
deriving DecidableEq, Repr

/-- Modelled from the spec (section 3): an atomic embedded object replacing a
sentinel character — an element type name plus an attribute map. -/
structure ReplacementDesc where
  type : String
  attributes : List (String × String) := []
deriving DecidableEq, Repr

/-- Modelled from the spec (section 3): an immutable rich-text snapshot — a
flat text buffer, per-offset format stacks, per-offset optional replacements
and an optional selection range (`end` is spelled `endPos`, `end` being
reserved). -/
structure RichTextValue where
  text : String
  formats : List (List FormatDesc) := []
  replacements : List (Option ReplacementDesc) := []
  start : Option Nat := none
  endPos : Option Nat := none
deriving Repr

/-- An open element under construction: its tag, namespace, attributes and the
children completed so far. -/
structure Frame where
  tag : String
  ns : Option String := none
  attrs : List Attr := []
  children : List DomTree := []
deriving Repr

/-- Close a frame into a finished element node. -/
def Frame.toTree (f : Frame) : DomTree :=
  .elem f.tag f.ns f.attrs f.children

/-- Open a frame for a format descriptor; its namespace is a pure function of
the format's tag name. -/
def Frame.ofFormat (fd : FormatDesc) : Frame :=
  { tag := fd.type, ns := tagNamespace fd.type, attrs := buildAttrs fd.attributes }

/-- Append a finished child under a frame. -/
def Frame.appendChild (f : Frame) (t : DomTree) : Frame :=
  { f with children := f.children ++ [t] }

/-- Append one character under a frame, coalescing into the last text-node
child when there is one (section 4.1, step 3). -/
def Frame.appendChar (f : Frame) (c : Char) : Frame :=
  match f.children.getLast? with
  | some (.text s) => { f with children := f.children.dropLast ++ [.text (s.push c)] }
  | _ => { f with children := f.children ++ [.text (String.singleton c)] }

/-- Modelled from the spec (section 4.1, step 4): the built element of a
replacement descriptor, with namespaces assigned by name. -/
def replacementTree (rd : ReplacementDesc) : DomTree :=
  .elem rd.type (tagNamespace rd.type) (buildAttrs rd.attributes) []

/-- Builder state: the stack of open frames (innermost first, the root body
frame last), the stack of currently open formats (outermost first), and the
selection paths recorded so far. -/
structure BuildState where
  stack : List Frame
  openFormats : List FormatDesc := []
  startPath : Option (List Nat) := none
  endPath : Option (List Nat) := none
deriving Repr

/-- Apply a frame transformation to the innermost open frame. -/
def modifyTop (g : Frame → Frame) (st : BuildState) : BuildState :=
  match st.stack with
  | f :: rest => { st with stack := g f :: rest }
  | [] => st

/-- Close the innermost open frame and append it as a child of its parent. -/
def closeTop (st : BuildState) : BuildState :=
  match st.stack with
  | f :: g :: rest => { st with stack := g.appendChild f.toTree :: rest }
  | _ => st

/-- Close the innermost open format element. -/
def closeFormat (st : BuildState) : BuildState :=
  { closeTop st with openFormats := st.openFormats.dropLast }

/-- Open a new format element as the innermost frame. -/
def openFormat (st : BuildState) (fd : FormatDesc) : BuildState :=
  { st with stack := Frame.ofFormat fd :: st.stack, openFormats := st.openFormats ++ [fd] }

/-- Open a multiline container frame (not part of the format stack). -/
def openParagraph (tag : String) (st : BuildState) : BuildState :=
  { st with stack := { tag := tag, ns := tagNamespace tag } :: st.stack }

/-- Length of the longest common prefix of two format stacks, comparing
formats by tag plus attributes (section 4.1, step 2). -/
def commonPrefixLength : List FormatDesc → List FormatDesc → Nat
  | a :: as, b :: bs => if a = b then commonPrefixLength as bs + 1 else 0
  | _, _ => 0

/-- Modelled from the spec (section 4.1, step 2): close every open format no
longer matching the required stack at its depth, then open the newly required
formats in nesting order. -/
def adjustFormats (st : BuildState) (required : List FormatDesc) : BuildState :=
  let k := commonPrefixLength st.openFormats required
  let closed := (List.range (st.openFormats.length - k)).foldl (fun s _ => closeFormat s) st
  (required.drop k).foldl openFormat closed

/-- Close every open format element. -/
def closeAllFormats (st : BuildState) : BuildState :=
  (List.range st.openFormats.length).foldl (fun s _ => closeFormat s) st

/-- Modelled from the spec (section 4.1, step 5): the selection path of the
current insertion point — the child index of each open frame within its
parent, then the index of the text node the boundary falls in and the offset
inside it (or the index of the upcoming child and offset 0 when the boundary
does not touch an existing text node). -/
def currentPath (st : BuildState) : List Nat :=
  let outer := (st.stack.reverse.dropLast).map (fun f => f.children.length)
  let inner :=
    match st.stack with
    | f :: _ =>
      match f.children.getLast? with
      | some (.text s) => [f.children.length - 1, s.length]
      | _ => [f.children.length, 0]
    | [] => []
  outer ++ inner

/-- Record the selection paths whose offset equals the current offset. -/
def recordBoundaries (v : RichTextValue) (i : Nat) (st : BuildState) : BuildState :=
  let st1 := if v.start = some i then { st with startPath := some (currentPath st) } else st
  if v.endPos = some i then { st1 with endPath := some (currentPath st1) } else st1

/-- The non-separator part of a build step (shared by the multiline and the
plain walk). -/
def buildStepInline (v : RichTextValue) (st : BuildState) (i : Nat) (c : Char) : BuildState :=
  let st1 := adjustFormats st (v.formats.getD i [])
  let st2 := recordBoundaries v i st1
  if c = objectReplacementChar then
    match v.replacements.getD i none with
    | some rd => modifyTop (fun f => f.appendChild (replacementTree rd)) st2
    | none => modifyTop (fun f => f.appendChar c) st2
  else
    modifyTop (fun f => f.appendChar c) st2

/-- Modelled from the spec (section 4.1, steps 1-5, for the missing `toDom`):
one step of the left-to-right walk at offset `i`. A line separator under a
multiline tag closes all formats and starts a new container; otherwise the
format stack is adjusted to the required stack, the selection boundaries at
this offset are recorded, and either the replacement element or the literal
character is appended under the innermost frame. -/
def buildStep (multilineTag : Option String) (v : RichTextValue) (st : BuildState) (i : Nat) : BuildState :=
  match multilineTag with
  | some mt =>
    if v.text.toList.getD i objectReplacementChar = lineSeparatorChar then
      recordBoundaries v i (openParagraph mt (closeTop (closeAllFormats st)))
    else
      buildStepInline v st i (v.text.toList.getD i objectReplacementChar)
  | none => buildStepInline v st i (v.text.toList.getD i objectReplacementChar)

/-- The initial builder state: a body frame, under a first multiline container
frame when a multiline tag is configured. -/
def initState (multilineTag : Option String) : BuildState :=
  let bodyFrame : Frame := { tag := "body" }
  match multilineTag with
  | some mt => { stack := [{ tag := mt, ns := tagNamespace mt }, bodyFrame] }
  | none => { stack := [bodyFrame] }

/-- Result of a build: the root container plus the selection path pair. -/
structure DomResult where
  body : DomTree
  startPath : Option (List Nat) := none
  endPath : Option (List Nat) := none
deriving Repr

/-- Finish a build: record the end-of-text boundary against the still-open
stack, close every open format, and close the multiline container when one
is configured. -/
def finalState (multilineTag : Option String) (v : RichTextValue) (st : BuildState) : BuildState :=
  if multilineTag.isSome then closeTop (closeAllFormats (recordBoundaries v v.text.length st))
  else closeAllFormats (recordBoundaries v v.text.length st)

/-- Read the build result out of the finished state: the lone remaining frame
is the root container. -/
def resultOf (st : BuildState) : DomResult :=
  match st.stack with
  | [f] => { body := f.toTree, startPath := st.startPath, endPath := st.endPath }
  | _ => { body := .elem "body" none [] [], startPath := st.startPath, endPath := st.endPath }

/-- Modelled from the spec (sections 4.1 and 6, for the missing `toDom`):
build the tree and the selection paths of a rich-text value. Empty text
yields an empty root and records no selection path (section 4.1, edge
cases); otherwise the builder walks the text and finishes by recording the
end-of-text boundary and closing every open element. -/
def toDom (multilineTag : Option String) (v : RichTextValue) : DomResult :=
  if v.text.isEmpty then
    { body := .elem "body" none [] [] }
  else
    resultOf (finalState multilineTag v
      ((List.range v.text.length).foldl (buildStep multilineTag v) (initState multilineTag)))

/-- Attribute names of a list are pairwise distinct. -/
def namesNodup : List Attr → Bool
  | [] => true
  | a :: as => !(as.any (fun b => b.name == a.name)) && namesNodup as

/-- Keys of a raw attribute map are pairwise distinct. -/
def keysNodup : List (String × String) → Bool
  | [] => true
  | p :: ps => !(ps.any (fun q => q.1 == p.1)) && keysNodup ps

mutual

/-- Every element of the tree carries attributes with distinct names — the
invariant a DOM host guarantees. -/
def treeWf : DomTree → Bool
  | .text _ => true
  | .elem _ _ attrs ch => namesNodup attrs && treeListWf ch

/-- Well-formedness of a child list. -/
def treeListWf : List DomTree → Bool
  | [] => true
  | t :: ts => treeWf t && treeListWf ts

end

/-- Well-formedness of an open frame. -/
def frameWf (f : Frame) : Bool := namesNodup f.attrs && treeListWf f.children

/-- Well-formedness of the whole frame stack. -/
def stackWf : List Frame → Bool
  | [] => true
  | f :: fs => frameWf f && stackWf fs

/-- Well-formedness of a builder state. -/
def stateWf (st : BuildState) : Bool := stackWf st.stack

mutual

/-- Forget node identities, recovering the built tree. -/
def strip : Node → DomTree
  | .text _ s => .text s
  | .elem _ tag ns attrs ch => .elem tag ns attrs (stripList ch)

/-- Forget node identities of a child list. -/
def stripList : List Node → List DomTree
  | [] => []
  | n :: rest => strip n :: stripList rest

end

mutual

/-- Load a built tree into the host, handing out fresh node identities from a
counter (preorder); two loads from different counters model two separately
built copies of the same value. -/
def withIds : DomTree → Nat → Node × Nat
  | .text s, n => (.text n s, n + 1)
  | .elem tag ns attrs ch, n =>
    let r := withIdsList ch (n + 1)
    (.elem n tag ns attrs r.1, r.2)

/-- Load a child list into the host. -/
def withIdsList : List DomTree → Nat → List Node × Nat
  | [], n => ([], n)
  | t :: ts, n =>
    let r := withIds t n
    let rs := withIdsList ts r.2
    (r.1 :: rs.1, rs.2)

end

/-- JS `String.prototype.toLowerCase`, over an explicit character list. -/
def jsToLower (s : List Char) : List Char := s.map Char.toLower

/-- JS `String.prototype.trim`, over an explicit character list. -/
def jsTrim (s : List Char) : List Char :=
  ((s.dropWhile Char.isWhitespace).reverse.dropWhile Char.isWhitespace).reverse

/-- JS `string.indexOf(needle) !== -1`: the needle occurs as a contiguous
substring (an empty needle always occurs). -/
def hasSub (needle : List Char) : List Char → Bool
  | [] => needle.isEmpty
  | c :: rest => needle.isPrefixOf (c :: rest) || hasSub needle rest

/-- The normalized search term of `searchItems` in
`editor/components/inserter/menu.js`: lowercased then trimmed. -/
def normalizeTerm (searchTerm : List Char) : List Char := jsTrim (jsToLower searchTerm)

/-- An inserter item as consumed by `searchItems`: a title plus keywords
(lodash `some` over an absent keyword list is false, so absence is the empty
list). -/
structure InserterItem where
  title : List Char
  keywords : List (List Char) := []
deriving DecidableEq, Repr

/-- `searchItems` from `editor/components/inserter/menu.js` (lines 39-46):
keep the items whose lowercased title contains the normalized term, or one of
whose lowercased keywords does. -/
def searchItems (items : List InserterItem) (searchTerm : List Char) : List InserterItem :=
  let normalizedSearchTerm := normalizeTerm searchTerm
  let matchSearch := fun (s : List Char) => hasSub normalizedSearchTerm (jsToLower s)
  items.filter fun item => matchSearch item.title || item.keywords.any matchSearch

/-- Block settings as consumed by `addAttribute`: the declared attributes
(a keyed map of attribute definitions, themselves keyed maps), the declared
support keys, and a stand-in for every other field of the settings object. -/
structure BlockSettings where
  attributes : List (String × List (String × String)) := []
  supports : List String := []
  other : List (String × String) := []
deriving DecidableEq, Repr

/-- The layout block-support key. -/
def layoutBlockSupportKey : String := "__experimentalLayout"

/-- Lodash `has(settings.attributes, [ 'layout', 'type' ])`: the attribute map
has a `layout` entry which itself has a `type` entry. -/
def hasLayoutTypePath (attrs : List (String × List (String × String))) : Bool :=
  match attrs.lookup "layout" with
  | some d => (d.lookup "type").isSome
  | none => false

/-- Modelled from the spec: `hasBlockSupport` of the external blocks package
(not part of this repository fragment) — the block declares the given support
key. -/
def hasBlockSupport (settings : BlockSettings) (key : String) : Bool :=
  settings.supports.contains key

/-- JS object spread update `{ ...m, k: v }`: replace the value at key `k` in
place when present, append the entry otherwise. -/
def spreadSet (k : String) (v : List (String × String)) :
    List (String × List (String × String)) → List (String × List (String × String))
  | [] => [(k, v)]
  | p :: ps => if p.1 = k then (k, v) :: ps else p :: spreadSet k v ps

/-- `addAttribute` of the layout block-support filter (bundled with
`editor/components/inserter/menu.js`, lines 531-545): leave the settings
alone when a `layout.type` attribute path already exists or the block does
not declare layout support; otherwise extend the attributes with a
`layout : { type: 'object' }` entry. -/
def addAttribute (settings : BlockSettings) : BlockSettings :=
  if hasLayoutTypePath settings.attributes then settings
  else if hasBlockSupport settings layoutBlockSupportKey then
    { settings with attributes := spreadSet "layout" [("type", "object")] settings.attributes }
  else settings

/-- An `em` format with no attributes. -/
def emFmt : FormatDesc := { type := "em" }

/-- A `strong` format with no attributes. -/
def strongFmt : FormatDesc := { type := "strong" }

/-- An `svg` format with no attributes. -/
def svgFmt : FormatDesc := { type := "svg" }

/-- An `img` replacement with a `src` attribute. -/
def imgRepl : ReplacementDesc := { type := "img", attributes := [("src", "1.png")] }

/-- A `use` replacement with an `xlink:href` attribute. -/
def useRepl : ReplacementDesc := { type := "use", attributes := [("xlink:href", "#logo")] }

/-- Corpus fixture: plain text with a full selection. -/
def valuePlainText : RichTextValue :=
  { text := "test", formats := [[], [], [], []], start := some 0, endPos := some 4 }

/-- Corpus fixture: a one-character `em` run in the middle of plain text. -/
def valueEmRun : RichTextValue :=
  { text := "abc", formats := [[], [emFmt], []] }

/-- Corpus fixture: an `img` replacement between two characters. -/
def valueReplacement : RichTextValue :=
  { text := "a" ++ String.singleton objectReplacementChar ++ "b",
    formats := [[], [], []],
    replacements := [none, some imgRepl, none] }

/-- Corpus fixture: two lines split by the line separator. -/
def valueMultiline : RichTextValue :=
  { text := "ab" ++ String.singleton lineSeparatorChar ++ "cd",
    formats := [[], [], [], [], []] }

/-- Corpus fixture: nested `strong`/`em` formats with a caret inside. -/
def valueNestedFormats : RichTextValue :=
  { text := "ab", formats := [[strongFmt], [strongFmt, emFmt]],
    start := some 1, endPos := some 1 }

/-- Corpus fixture: plain text with a collapsed caret inside a text node. -/
def valueCaret : RichTextValue :=
  { text := "ab", start := some 1, endPos := some 1 }

/-- The SVG value of the namespace test: a lone replacement character with an
`svg` format and a `use` replacement carrying an `xlink:href` attribute. -/
def svgValue : RichTextValue :=
  { text := String.singleton objectReplacementChar,
    formats := [[svgFmt]],
    replacements := [some useRepl],
    start := some 0, endPos := some 1 }

/-- Patch fixture `should add nodes`: current body built from `""`. -/
def curAddCase : Node := .elem 0 "body" none [] []

/-- Patch fixture `should add nodes`: future body built from `"test"`. -/
def futAddCase : Node := .elem 10 "body" none [] [.text 11 "test"]

/-- Patch fixture `should remove nodes`: current body built from `"test"`. -/
def curRemoveCase : Node := .elem 0 "body" none [] [.text 1 "test"]

/-- Patch fixture `should remove nodes`: future body built from `""`. -/
def futRemoveCase : Node := .elem 10 "body" none [] []

/-- Patch fixture `should not modify`: current body built from `"test"`. -/
def curNopCase : Node := .elem 0 "body" none [] [.text 1 "test"]

/-- Patch fixture `should not modify`: future body built from `"test"`. -/
def futNopCase : Node := .elem 10 "body" none [] [.text 11 "test"]

/-- Patch fixture `should remove attribute`: current `<span data-1="">b</span>`. -/
def curRemAttr : Node :=
  .elem 0 "body" none [] [.elem 1 "span" none [⟨"data-1", "", none⟩] [.text 2 "b"]]

/-- Patch fixture `should remove attribute`: future `<span>b</span>`. -/
def futRemAttr : Node :=
  .elem 10 "body" none [] [.elem 11 "span" none [] [.text 12 "b"]]

/-- Patch fixture `should remove attributes`: current
`<span data-1="" data-2="">b</span>`. -/
def curRemAttrs : Node :=
  .elem 0 "body" none []
    [.elem 1 "span" none [⟨"data-1", "", none⟩, ⟨"data-2", "", none⟩] [.text 2 "b"]]

/-- Patch fixture `should remove attributes`: future `<span>b</span>`. -/
def futRemAttrs : Node :=
  .elem 10 "body" none [] [.elem 11 "span" none [] [.text 12 "b"]]

/-- Patch fixture `should add attribute`: current `<span>a</span>`. -/
def curAddAttr : Node :=
  .elem 0 "body" none [] [.elem 1 "span" none [] [.text 2 "a"]]

/-- Patch fixture `should add attribute`: future `<span data-1="">c</span>`. -/
def futAddAttr : Node :=
  .elem 10 "body" none [] [.elem 11 "span" none [⟨"data-1", "", none⟩] [.text 12 "c"]]

/-- Patch fixture `should add attributes`: current `<span>a</span>`. -/
def curAddAttrs : Node :=
  .elem 0 "body" none [] [.elem 1 "span" none [] [.text 2 "a"]]

/-- Patch fixture `should add attributes`: future
`<span data-1="" data-2="">c</span>`. -/
def futAddAttrs : Node :=
  .elem 10 "body" none []
    [.elem 11 "span" none [⟨"data-1", "", none⟩, ⟨"data-2", "", none⟩] [.text 12 "c"]]

/-- Patch fixture `should update attribute`: current `<span data-1="i">a</span>`. -/
def curUpdAttr : Node :=
  .elem 0 "body" none [] [.elem 1 "span" none [⟨"data-1", "i", none⟩] [.text 2 "a"]]

/-- Patch fixture `should update attribute`: future `<span data-1="ii">a</span>`. -/
def futUpdAttr : Node :=
  .elem 10 "body" none [] [.elem 11 "span" none [⟨"data-1", "ii", none⟩] [.text 12 "a"]]

/-- Patch fixture `should update attributes`: current
`<span data-1="i" data-2="ii">a</span>`. -/
def curUpdAttrs : Node :=
  .elem 0 "body" none []
    [.elem 1 "span" none [⟨"data-1", "i", none⟩, ⟨"data-2", "ii", none⟩] [.text 2 "a"]]

/-- Patch fixture `should update attributes`: future
`<span data-1="ii" data-2="i">a</span>`. -/
def futUpdAttrs : Node :=
  .elem 10 "body" none []
    [.elem 11 "span" none [⟨"data-1", "ii", none⟩, ⟨"data-2", "i", none⟩] [.text 12 "a"]]

/-- A concrete inserter item used to witness the search characterisation. -/
def headingItem : InserterItem := { title := "Heading".toList, keywords := ["title".toList] }

/-- Block settings whose `attributes` already hold a `layout` entry without a
`type` sub-key, for a block declaring layout support. -/
def layoutClashSettings : BlockSettings :=
  { attributes := [("layout", [("foo", "bar")])],
    supports := [layoutBlockSupportKey] }

/-- Block settings with no `layout` attribute, declaring layout support. -/
def layoutFreshSettings : BlockSettings :=
  { attributes := [("content", [("type", "string")])],
    supports := [layoutBlockSupportKey],
    other := [("title", "Paragraph")] }

/-- Block settings whose attributes already hold a `layout.type` path. -/
def layoutTypedSettings : BlockSettings :=
  { attributes := [("layout", [("type", "object")])],
    supports := [layoutBlockSupportKey] }

/-- Block settings declaring no layout support. -/
def noSupportSettings : BlockSettings :=
  { attributes := [("content", [("type", "string")])] }

/-- C1: for every fixture (value, multilineTag, expectedStartPath,
expectedEndPath) of the corpus, building the value with `toDom` produces a
tree structurally equal to the expected fixture tree and selection paths
exactly equal to the expected paths. -/
theorem toDom_fixture_corpus :
    toDom none valuePlainText =
      { body := .elem "body" none [] [.text "test"],
        startPath := some [0, 0], endPath := some [0, 4] } ∧
    toDom none valueEmRun =
      { body := .elem "body" none []
          [.text "a", .elem "em" none [] [.text "b"], .text "c"] } ∧
    toDom none valueReplacement =
      { body := .elem "body" none []
          [.text "a", .elem "img" none [⟨"src", "1.png", none⟩] [], .text "b"] } ∧
    toDom (some "p") valueMultiline =
      { body := .elem "body" none []
          [.elem "p" none [] [.text "ab"], .elem "p" none [] [.text "cd"]] } ∧
    toDom none valueNestedFormats =
      { body := .elem "body" none []
          [.elem "strong" none [] [.text "a", .elem "em" none [] [.text "b"]]],
        startPath := some [0, 1, 0, 0], endPath := some [0, 1, 0, 0] } ∧
    toDom none valueCaret =
      { body := .elem "body" none [] [.text "ab"],
        startPath := some [0, 1], endPath := some [0, 1] } :=
  ⟨rfl, rfl, rfl, rfl, rfl, rfl⟩

/-- C2: patching an empty current body against a future body built from
`"test"` leaves the text in the current body and relocates exactly one
pre-patch future child into it. -/
theorem applyValue_adds_nodes :
    applyValue futAddCase curAddCase = .elem 0 "body" none [] [.text 11 "test"] ∧
    innerHTML (applyValue futAddCase curAddCase) = "test" ∧
    movedCount futAddCase.children (applyValue futAddCase curAddCase) = 1 :=
  ⟨rfl, rfl, rfl⟩

/-- C3: patching a current body containing the text `"test"` against an empty
future body empties the current body and relocates no pre-patch future
child. -/
theorem applyValue_removes_nodes :
    applyValue futRemoveCase curRemoveCase = .elem 0 "body" none [] [] ∧
    innerHTML (applyValue futRemoveCase curRemoveCase) = "" ∧
    movedCount futRemoveCase.children (applyValue futRemoveCase curRemoveCase) = 0 :=
  ⟨rfl, rfl, rfl⟩

/-- C5: for each attribute-difference case on a `<span>` wrapping text
(remove one or two attributes, add one or two, update one or two values), the
patched current body serializes exactly to the future's serialization, and no
pre-patch future child is relocated into the current body. -/
theorem applyValue_attribute_cases :
    (innerHTML (applyValue futRemAttr curRemAttr) = innerHTML futRemAttr ∧
     innerHTML (applyValue futRemAttr curRemAttr) = "<span>b</span>" ∧
     movedCount futRemAttr.children (applyValue futRemAttr curRemAttr) = 0) ∧
    (innerHTML (applyValue futRemAttrs curRemAttrs) = innerHTML futRemAttrs ∧
     innerHTML (applyValue futRemAttrs curRemAttrs) = "<span>b</span>" ∧
     movedCount futRemAttrs.children (applyValue futRemAttrs curRemAttrs) = 0) ∧
    (innerHTML (applyValue futAddAttr curAddAttr) = innerHTML futAddAttr ∧
     innerHTML (applyValue futAddAttr curAddAttr) = "<span data-1=\"\">c</span>" ∧
     movedCount futAddAttr.children (applyValue futAddAttr curAddAttr) = 0) ∧
    (innerHTML (applyValue futAddAttrs curAddAttrs) = innerHTML futAddAttrs ∧
     innerHTML (applyValue futAddAttrs curAddAttrs) = "<span data-1=\"\" data-2=\"\">c</span>" ∧
     movedCount futAddAttrs.children (applyValue futAddAttrs curAddAttrs) = 0) ∧
    (innerHTML (applyValue futUpdAttr curUpdAttr) = innerHTML futUpdAttr ∧
     innerHTML (applyValue futUpdAttr curUpdAttr) = "<span data-1=\"ii\">a</span>" ∧
     movedCount futUpdAttr.children (applyValue futUpdAttr curUpdAttr) = 0) ∧
    (innerHTML (applyValue futUpdAttrs curUpdAttrs) = innerHTML futUpdAttrs ∧
     innerHTML (applyValue futUpdAttrs curUpdAttrs) = "<span data-1=\"ii\" data-2=\"i\">a</span>" ∧
     movedCount futUpdAttrs.children (applyValue futUpdAttrs curUpdAttrs) = 0) :=
  ⟨⟨rfl, rfl, rfl⟩, ⟨rfl, rfl, rfl⟩, ⟨rfl, rfl, rfl⟩,
   ⟨rfl, rfl, rfl⟩, ⟨rfl, rfl, rfl⟩, ⟨rfl, rfl, rfl⟩⟩

/-- C6: building the SVG value yields a tree whose `svg` element carries the
SVG namespace and whose replacement's `xlink:href` attribute carries the
XLink namespace; and namespace assignment is a pure function of the tag or
attribute name alone, independent of the format stack. -/
theorem toDom_svg_namespaces :
    (toDom none svgValue).body =
      .elem "body" none []
        [.elem "svg" (some svgNamespace) []
          [.elem "use" (some svgNamespace)
            [⟨"xlink:href", "#logo", some xlinkNamespace⟩] []]] ∧
    (∀ fd : FormatDesc, (Frame.ofFormat fd).ns = tagNamespace fd.type) ∧
    (∀ rd : ReplacementDesc, (replacementTree rd).tagNs = tagNamespace rd.type) ∧
    (∀ p : String × String, (toAttr p).ns = attrNamespace p.1) :=
  ⟨rfl, fun _ => rfl, fun _ => rfl, fun _ => rfl⟩

/-- C8: building any value whose text is empty yields a root container with
no children and records no selection path. -/
theorem toDom_empty_text (multilineTag : Option String) (v : RichTextValue)
    (h : v.text = "") :
    toDom multilineTag v =
      { body := .elem "body" none [] [], startPath := none, endPath := none } := by
  unfold toDom
  rw [h]
  rfl

/-- Witness for C8 at the empty value. -/
theorem toDom_empty_text_witness :
    toDom none { text := "" } =
      { body := .elem "body" none [] [], startPath := none, endPath := none } :=
  toDom_empty_text none { text := "" } rfl

/-- An empty needle occurs in every string. -/
theorem hasSub_nil (s : List Char) : hasSub [] s = true := by
  cases s <;> simp [hasSub, List.isPrefixOf]

/-- C9: `searchItems` returns exactly the items, in their original order,
whose title contains the lowercased trimmed term case-insensitively or one of
whose keywords does; the result is a subsequence of the input, and a term
trimming to the empty string returns every item. -/
theorem searchItems_spec (items : List InserterItem) (searchTerm : List Char) :
    (searchItems items searchTerm).Sublist items ∧
    (∀ item, item ∈ searchItems items searchTerm ↔
      item ∈ items ∧
        (hasSub (normalizeTerm searchTerm) (jsToLower item.title) = true ∨
         ∃ k ∈ item.keywords, hasSub (normalizeTerm searchTerm) (jsToLower k) = true)) ∧
    (normalizeTerm searchTerm = [] → searchItems items searchTerm = items) := by
  refine ⟨?_, ?_, ?_⟩
  · exact List.filter_sublist items
  · intro item
    simp [searchItems, List.mem_filter, List.any_eq_true]
  · intro h
    simp only [searchItems, h]
    apply List.filter_eq_self.mpr
    intro a _
    simp [hasSub_nil]

/-- Witness for C9 at a whitespace-only term over a one-item list. -/
theorem searchItems_spec_witness :
    normalizeTerm "  ".toList = [] ∧
      searchItems [headingItem] "  ".toList = [headingItem] :=
  ⟨by decide, (searchItems_spec [headingItem] "  ".toList).2.2 (by decide)⟩

/-- Looking up the updated key after a spread update yields the new value. -/
theorem spreadSet_lookup_self (k : String) (v : List (String × String))
    (m : List (String × List (String × String))) :
    (spreadSet k v m).lookup k = some v := by
  induction m with
  | nil => simp [spreadSet, List.lookup]
  | cons p ps ih =>
    by_cases h : p.1 = k
    · simp [spreadSet, h, List.lookup]
    · have hne : (k == p.1) = false := beq_eq_false_iff_ne.mpr (Ne.symm h)
      simp [spreadSet, h, List.lookup, hne, ih]

/-- Looking up any other key after a spread update is unchanged. -/
theorem spreadSet_lookup_ne (k k' : String) (v : List (String × String))
    (m : List (String × List (String × String))) (h : k' ≠ k) :
    (spreadSet k v m).lookup k' = m.lookup k' := by
  have hne : (k' == k) = false := beq_eq_false_iff_ne.mpr h
  induction m with
  | nil => simp [spreadSet, List.lookup, hne]
  | cons p ps ih =>
    by_cases hp : p.1 = k
    · simp [spreadSet, hp, List.lookup, hne]
    · simp [spreadSet, hp, List.lookup, ih]

/-- C10 (amended): `addAttribute` returns the settings unchanged when the
attributes already contain a `layout.type` path or the block does not declare
layout support; when it does add the layout attribute, the other settings
fields are unchanged, every pre-existing attribute entry under a key other
than `layout` is unchanged, and the `layout` entry afterwards is
`{ type: 'object' }` (so a pre-existing `layout` entry lacking a `type`
sub-key is overwritten). -/
theorem addAttribute_spec (settings : BlockSettings) :
    (hasLayoutTypePath settings.attributes = true → addAttribute settings = settings) ∧
    (hasBlockSupport settings layoutBlockSupportKey = false → addAttribute settings = settings) ∧
    (hasLayoutTypePath settings.attributes = false →
     hasBlockSupport settings layoutBlockSupportKey = true →
       (addAttribute settings).supports = settings.supports ∧
       (addAttribute settings).other = settings.other ∧
       (addAttribute settings).attributes.lookup "layout" = some [("type", "object")] ∧
       (∀ k, k ≠ "layout" → (addAttribute settings).attributes.lookup k = settings.attributes.lookup k)) := by
  refine ⟨?_, ?_, ?_⟩
  · intro h; simp [addAttribute, h]
  · intro h; simp [addAttribute, h]
  · intro h1 h2
    have heq : addAttribute settings =
        { settings with attributes := spreadSet "layout" [("type", "object")] settings.attributes } := by
      simp [addAttribute, h1, h2]
    rw [heq]
    exact ⟨rfl, rfl, spreadSet_lookup_self "layout" [("type", "object")] settings.attributes,
      fun k hk => spreadSet_lookup_ne "layout" k [("type", "object")] settings.attributes hk⟩

/-- Counterexample to C10 as stated: on settings whose attributes already hold
a `layout` entry without a `type` sub-key, the filter adds the layout
attribute yet the pre-existing `layout` entry is not left unchanged. -/
theorem addAttribute_overwrites_layout_entry :
    addAttribute layoutClashSettings ≠ layoutClashSettings ∧
    (addAttribute layoutClashSettings).attributes.lookup "layout" ≠
      layoutClashSettings.attributes.lookup "layout" := by
  constructor <;> decide

/-- Witness for C10 (amended) on three concrete settings, one per branch. -/
theorem addAttribute_spec_witness :
    addAttribute layoutTypedSettings = layoutTypedSettings ∧
    addAttribute noSupportSettings = noSupportSettings ∧
    (addAttribute layoutFreshSettings).attributes.lookup "layout" = some [("type", "object")] ∧
    (addAttribute layoutFreshSettings).attributes.lookup "content" =
      layoutFreshSettings.attributes.lookup "content" :=
  ⟨(addAttribute_spec layoutTypedSettings).1 (by decide),
   (addAttribute_spec noSupportSettings).2.1 (by decide),
   ((addAttribute_spec layoutFreshSettings).2.2 (by decide) (by decide)).2.2.1,
   ((addAttribute_spec layoutFreshSettings).2.2 (by decide) (by decide)).2.2.2 "content" (by decide)⟩

/-- C7: the node returned by a patch is the very node passed in as current
(root identity is preserved); a current node whose kind and tag match its
future counterpart keeps its identity, with text, attribute and child
differences applied in place, and only a kind or tag mismatch replaces the
current node by the future one. -/
theorem applyValue_identity_stability :
    (∀ future current : Node, (applyValue future current).nid = current.nid) ∧
    (∀ fid fs cid cs, patchNode (.text fid fs) (.text cid cs) = .text cid fs) ∧
    (∀ fid ft fns fa fch cid ct cns ca cch, ft = ct →
       (patchNode (.elem fid ft fns fa fch) (.elem cid ct cns ca cch)).nid = cid) ∧
    (∀ fid ft fns fa fch cid ct cns ca cch, ft ≠ ct →
       patchNode (.elem fid ft fns fa fch) (.elem cid ct cns ca cch) = .elem fid ft fns fa fch) := by
  refine ⟨?_, ?_, ?_, ?_⟩
  · intro f c
    cases f <;> cases c <;> rfl
  · intro fid fs cid cs
    rfl
  · intro fid ft fns fa fch cid ct cns ca cch h
    subst h
    simp [patchNode, Node.nid]
  · intro fid ft fns fa fch cid ct cns ca cch h
    simp [patchNode, h]

/-- Witness for C7 on concrete matching and mismatching nodes. -/
theorem applyValue_identity_stability_witness :
    (applyValue (.elem 3 "body" none [] []) (.elem 9 "body" none [] [])).nid = 9 ∧
    patchNode (.text 1 "x") (.text 2 "y") = .text 2 "x" ∧
    (patchNode (.elem 5 "span" none [] []) (.elem 7 "span" none [] [])).nid = 7 ∧
    patchNode (.elem 5 "em" none [] []) (.elem 7 "span" none [] []) = .elem 5 "em" none [] [] :=
  ⟨applyValue_identity_stability.1 (.elem 3 "body" none [] []) (.elem 9 "body" none [] []),
   applyValue_identity_stability.2.1 1 "x" 2 "y",
   applyValue_identity_stability.2.2.1 5 "span" none [] [] 7 "span" none [] [] rfl,
   applyValue_identity_stability.2.2.2 5 "em" none [] [] 7 "span" none [] [] (by decide)⟩
/-- A filterMap whose function is the identity on every member is the identity. -/
theorem filterMap_id_of_mem {α : Type} (l : List α) (f : α → Option α)
    (h : ∀ x ∈ l, f x = some x) : l.filterMap f = l := by
  induction l with
  | nil => rfl
  | cons y ys ih =>
    simp only [List.filterMap_cons, h y (by simp)]
    rw [ih (fun x hx => h x (by simp [hx]))]

/-- With pairwise distinct names, searching a list for an element's own name
finds that element. -/
theorem find_name_self (a : List Attr) (h : namesNodup a = true) :
    ∀ x ∈ a, a.find? (fun b => b.name = x.name) = some x := by
  induction a with
  | nil => intro x hx; simp at hx
  | cons y ys ih =>
    simp only [namesNodup, Bool.and_eq_true, Bool.not_eq_true'] at h
    obtain ⟨hy, hys⟩ := h
    intro x hx
    rcases List.mem_cons.mp hx with hxy | hxys
    · subst hxy
      simp [List.find?_cons]
    · have hne : y.name ≠ x.name := by
        intro heq
        have : ys.any (fun b => b.name == y.name) = true :=
          List.any_eq_true.mpr ⟨x, hxys, by simp [heq]⟩
        simp [this] at hy
      simp [List.find?_cons, hne, ih hys x hxys]

/-- Reconciling a well-formed attribute list against itself changes nothing. -/
theorem reconcileAttrs_self (a : List Attr) (h : namesNodup a = true) :
    reconcileAttrs a a = a := by
  unfold reconcileAttrs
  have h1 : (a.filterMap fun x =>
      match a.find? (fun b => b.name = x.name) with
      | some b => some b
      | none => none) = a := by
    apply filterMap_id_of_mem
    intro x hx
    simp [find_name_self a h x hx]
  have h2 : (a.filter fun b => (a.find? (fun x => x.name = b.name)).isNone) = [] := by
    apply List.filter_eq_nil_iff.mpr
    intro b hb
    simp [find_name_self a h b hb]
  rw [h1, h2, List.append_nil]

/-- Patching a node against a structurally identical well-formed current node
is the identity, by strong induction on the size of the future node. -/
theorem patch_aux : ∀ n : Nat,
    (∀ f c : Node, sizeOf f ≤ n → treeWf (strip c) = true → strip f = strip c →
      patchNode f c = c) ∧
    (∀ fs cs : List Node, sizeOf fs ≤ n → treeListWf (stripList cs) = true →
      stripList fs = stripList cs → patchChildren fs cs = cs) := by
  intro n
  induction n with
  | zero =>
    constructor
    · intro f c hle
      cases f <;> simp_arith at hle
    · intro fs cs hle
      cases fs <;> simp_arith at hle
  | succ n ih =>
    constructor
    · intro f c hle hwf hstrip
      match f, c with
      | .text fid fs, .text cid cs =>
        simp only [strip] at hstrip
        injection hstrip with h
        simp [patchNode, h]
      | .text fid fs, .elem cid ct cns ca cch =>
        simp [strip] at hstrip
      | .elem fid ft fns fa fch, .elem cid ct cns ca cch =>
        simp only [strip] at hstrip
        injection hstrip with h1 h2 h3 h4
        subst h1; subst h2; subst h3
        simp only [strip, treeWf, Bool.and_eq_true] at hwf
        obtain ⟨hnodup, hwfch⟩ := hwf
        have hsz : sizeOf fch ≤ n := by
          simp_arith at hle
          omega
        have hrec := ih.2 fch cch hsz hwfch h4
        simp [patchNode, hrec, reconcileAttrs_self fa hnodup]
      | .elem fid ft fns fa fch, .text cid cs =>
        simp [strip] at hstrip
    · intro fs cs hle hwf hstrip
      match fs, cs with
      | [], [] => rfl
      | [], c :: cs' =>
        simp [stripList] at hstrip
      | f :: fs', [] =>
        simp [stripList] at hstrip
      | f :: fs', c :: cs' =>
        simp only [stripList] at hstrip
        injection hstrip with hh ht
        simp only [stripList, treeListWf, Bool.and_eq_true] at hwf
        obtain ⟨hwfc, hwfcs⟩ := hwf
        have hszf : sizeOf f ≤ n := by
          simp_arith at hle
          omega
        have hszfs : sizeOf fs' ≤ n := by
          simp_arith at hle
          omega
        simp [patchChildren, ih.1 f c hszf hwfc hh, ih.2 fs' cs' hszfs hwfcs ht]

/-- Child-list form of the patch identity. -/
theorem patchChildren_strip (fs cs : List Node) (hwf : treeListWf (stripList cs) = true)
    (h : stripList fs = stripList cs) : patchChildren fs cs = cs :=
  (patch_aux (sizeOf fs)).2 fs cs (Nat.le_refl _) hwf h

/-- Patching a root against a structurally identical well-formed current root
returns the current root unchanged. -/
theorem applyValue_strip (f c : Node) (hwf : treeWf (strip c) = true)
    (h : strip f = strip c) : applyValue f c = c := by
  match f, c with
  | .text fid fs, .text cid cs => rfl
  | .text fid fs, .elem cid ct cns ca cch => rfl
  | .elem fid ft fns fa fch, .text cid cs => rfl
  | .elem fid ft fns fa fch, .elem cid ct cns ca cch =>
    simp only [strip] at h
    injection h with h1 h2 h3 h4
    simp only [strip, treeWf, Bool.and_eq_true] at hwf
    simp [applyValue, patchChildren_strip fch cch hwf.2 h4]

/-- Loading a tree into the host and stripping identities recovers the tree,
by strong induction on its size. -/
theorem withIds_strip_aux : ∀ n : Nat,
    (∀ t : DomTree, ∀ m : Nat, sizeOf t ≤ n → strip (withIds t m).1 = t) ∧
    (∀ ts : List DomTree, ∀ m : Nat, sizeOf ts ≤ n → stripList (withIdsList ts m).1 = ts) := by
  intro n
  induction n with
  | zero =>
    constructor
    · intro t m hle; cases t <;> simp_arith at hle
    · intro ts m hle; cases ts <;> simp_arith at hle
  | succ n ih =>
    constructor
    · intro t m hle
      match t with
      | .text s => simp [withIds, strip]
      | .elem tag ns attrs ch =>
        have hsz : sizeOf ch ≤ n := by simp_arith at hle; omega
        simp [withIds, strip, ih.2 ch (m + 1) hsz]
    · intro ts m hle
      match ts with
      | [] => simp [withIdsList, stripList]
      | t :: ts' =>
        have h1 : sizeOf t ≤ n := by simp_arith at hle; omega
        have h2 : sizeOf ts' ≤ n := by simp_arith at hle; omega
        simp [withIdsList, stripList, ih.1 t m h1, ih.2 ts' _ h2]

/-- Stripping the identities of a freshly loaded tree recovers the tree. -/
theorem strip_withIds (t : DomTree) (m : Nat) : strip (withIds t m).1 = t :=
  (withIds_strip_aux (sizeOf t)).1 t m (Nat.le_refl _)

/-- Deduplication never emits a key it has already seen. -/
theorem keys_dedupe_not_seen (l : List (String × String)) :
    ∀ seen k, seen.contains k = true →
      (dedupeAttrsAux seen l).any (fun q => q.1 == k) = false := by
  induction l with
  | nil => intro seen k _; rfl
  | cons p ps ih =>
    intro seen k hk
    by_cases hp : seen.contains p.1 = true
    · simp only [dedupeAttrsAux, if_pos hp]
      exact ih seen k hk
    · have hne : (p.1 == k) = false := by
        apply beq_eq_false_iff_ne.mpr
        intro heq
        rw [heq] at hp
        exact hp hk
      have hk2 : (p.1 :: seen).contains k = true := by
        rw [List.contains_cons, hk, Bool.or_true]
      have hrec := ih (p.1 :: seen) k hk2
      simp only [dedupeAttrsAux, if_neg hp, List.any_cons, hne, hrec]
      rfl

/-- Deduplication yields pairwise distinct keys. -/
theorem keysNodup_dedupe (l : List (String × String)) :
    ∀ seen, keysNodup (dedupeAttrsAux seen l) = true := by
  induction l with
  | nil => intro seen; rfl
  | cons p ps ih =>
    intro seen
    by_cases hp : seen.contains p.1 = true
    · simp only [dedupeAttrsAux, if_pos hp]
      exact ih seen
    · have hrec := keys_dedupe_not_seen ps (p.1 :: seen) p.1 (by
        rw [List.contains_cons]
        simp)
      simp only [dedupeAttrsAux, if_neg hp, keysNodup, hrec, ih (p.1 :: seen)]
      rfl

/-- Attribute conversion keeps names, so name searches commute with it. -/
theorem any_name_map_toAttr (ps : List (String × String)) (k : String) :
    ((ps.map toAttr).any fun b => b.name == k) = ps.any fun q => q.1 == k := by
  induction ps with
  | nil => rfl
  | cons q qs ih =>
    simp only [List.map_cons, List.any_cons, ih]
    rfl

/-- Attribute conversion preserves distinctness of names. -/
theorem namesNodup_map_toAttr (l : List (String × String)) :
    namesNodup (l.map toAttr) = keysNodup l := by
  induction l with
  | nil => rfl
  | cons p ps ih =>
    simp only [List.map_cons, namesNodup, keysNodup, ih, any_name_map_toAttr]
    rfl

/-- Built attribute lists always carry pairwise distinct names. -/
theorem namesNodup_buildAttrs (l : List (String × String)) :
    namesNodup (buildAttrs l) = true := by
  rw [buildAttrs, namesNodup_map_toAttr]
  exact keysNodup_dedupe l []

/-- Well-formedness distributes over list append. -/
theorem treeListWf_append (a b : List DomTree) :
    treeListWf (a ++ b) = (treeListWf a && treeListWf b) := by
  induction a with
  | nil => simp [treeListWf]
  | cons t ts ih => simp [treeListWf, ih, Bool.and_assoc]

/-- Well-formedness survives dropping the last child. -/
theorem treeListWf_dropLast (l : List DomTree) (h : treeListWf l = true) :
    treeListWf l.dropLast = true := by
  induction l with
  | nil => simp [treeListWf]
  | cons t ts ih =>
    cases ts with
    | nil => simp [treeListWf]
    | cons u us =>
      rw [treeListWf, Bool.and_eq_true] at h
      have hd := ih h.2
      rw [List.dropLast_cons₂, treeListWf, hd, h.1]
      rfl

/-- A closed frame is well-formed exactly when the frame was. -/
theorem treeWf_toTree (f : Frame) : treeWf f.toTree = frameWf f := by
  simp [Frame.toTree, treeWf, frameWf]

/-- A frame opened for a format is well-formed. -/
theorem frameWf_ofFormat (fd : FormatDesc) : frameWf (Frame.ofFormat fd) = true := by
  simp [Frame.ofFormat, frameWf, treeListWf, namesNodup_buildAttrs]

/-- A replacement element is well-formed. -/
theorem treeWf_replacementTree (rd : ReplacementDesc) : treeWf (replacementTree rd) = true := by
  simp [replacementTree, treeWf, treeListWf, namesNodup_buildAttrs]

/-- Appending a well-formed child keeps a frame well-formed. -/
theorem frameWf_appendChild (f : Frame) (t : DomTree)
    (hf : frameWf f = true) (ht : treeWf t = true) :
    frameWf (f.appendChild t) = true := by
  rw [frameWf, Bool.and_eq_true] at hf
  simp [Frame.appendChild, frameWf, treeListWf_append, treeListWf, hf.1, hf.2, ht]

/-- Appending a character keeps a frame well-formed. -/
theorem frameWf_appendChar (f : Frame) (c : Char) (hf : frameWf f = true) :
    frameWf (f.appendChar c) = true := by
  rw [frameWf, Bool.and_eq_true] at hf
  unfold Frame.appendChar
  split
  · simp [frameWf, treeListWf_append, treeListWf, treeWf, hf.1,
      treeListWf_dropLast f.children hf.2]
  · simp [frameWf, treeListWf_append, treeListWf, treeWf, hf.1, hf.2]

/-- Transforming the top frame with a well-formedness-preserving function
keeps the state well-formed. -/
theorem stackWf_modifyTop (g : Frame → Frame) (st : BuildState)
    (hg : ∀ f, frameWf f = true → frameWf (g f) = true)
    (h : stateWf st = true) : stateWf (modifyTop g st) = true := by
  unfold stateWf at h ⊢
  cases hs : st.stack with
  | nil => simpa [modifyTop, hs] using h
  | cons f rest =>
    rw [hs, stackWf, Bool.and_eq_true] at h
    simp [modifyTop, hs, stackWf, hg f h.1, h.2]

/-- Closing the top frame keeps the state well-formed. -/
theorem stateWf_closeTop (st : BuildState) (h : stateWf st = true) :
    stateWf (closeTop st) = true := by
  unfold stateWf at h ⊢
  cases hs : st.stack with
  | nil => simpa [closeTop, hs] using h
  | cons f rest =>
    cases rest with
    | nil => simpa [closeTop, hs] using h
    | cons g rest' =>
      rw [hs, stackWf, Bool.and_eq_true, stackWf, Bool.and_eq_true] at h
      have happ : frameWf (g.appendChild f.toTree) = true :=
        frameWf_appendChild g f.toTree h.2.1 (by rw [treeWf_toTree]; exact h.1)
      simp [closeTop, hs, stackWf, happ, h.2.2]

/-- Closing a format keeps the state well-formed. -/
theorem stateWf_closeFormat (st : BuildState) (h : stateWf st = true) :
    stateWf (closeFormat st) = true :=
  stateWf_closeTop st h

/-- Opening a format keeps the state well-formed. -/
theorem stateWf_openFormat (st : BuildState) (fd : FormatDesc) (h : stateWf st = true) :
    stateWf (openFormat st fd) = true := by
  unfold stateWf openFormat at *
  simp [stackWf, frameWf_ofFormat]
  exact h

/-- Opening a multiline container keeps the state well-formed. -/
theorem stateWf_openParagraph (tag : String) (st : BuildState) (h : stateWf st = true) :
    stateWf (openParagraph tag st) = true := by
  unfold stateWf openParagraph at *
  simp [stackWf, frameWf, namesNodup, treeListWf]
  exact h

/-- A fold preserves any invariant each step preserves. -/
theorem foldl_preserve {α β : Type} (P : α → Bool) (f : α → β → α) (l : List β)
    (hf : ∀ s b, P s = true → P (f s b) = true) :
    ∀ s, P s = true → P (l.foldl f s) = true := by
  induction l with
  | nil => intro s h; simpa using h
  | cons b bs ih =>
    intro s h
    simp only [List.foldl_cons]
    exact ih (f s b) (hf s b h)

/-- Adjusting the format stack keeps the state well-formed. -/
theorem stateWf_adjustFormats (st : BuildState) (required : List FormatDesc)
    (h : stateWf st = true) : stateWf (adjustFormats st required) = true := by
  unfold adjustFormats
  apply foldl_preserve stateWf openFormat _ (fun s fd hs => stateWf_openFormat s fd hs)
  apply foldl_preserve stateWf _ _ (fun s _ hs => stateWf_closeFormat s hs)
  exact h

/-- Closing all formats keeps the state well-formed. -/
theorem stateWf_closeAllFormats (st : BuildState) (h : stateWf st = true) :
    stateWf (closeAllFormats st) = true := by
  unfold closeAllFormats
  apply foldl_preserve stateWf _ _ (fun s _ hs => stateWf_closeFormat s hs)
  exact h

/-- Recording selection boundaries never touches the frame stack. -/
theorem recordBoundaries_stack (v : RichTextValue) (i : Nat) (st : BuildState) :
    (recordBoundaries v i st).stack = st.stack := by
  unfold recordBoundaries
  by_cases h1 : v.start = some i <;> by_cases h2 : v.endPos = some i <;> simp [h1, h2]

/-- Recording selection boundaries keeps the state well-formed. -/
theorem stateWf_recordBoundaries (v : RichTextValue) (i : Nat) (st : BuildState)
    (h : stateWf st = true) : stateWf (recordBoundaries v i st) = true := by
  unfold stateWf
  rw [recordBoundaries_stack]
  exact h

/-- An inline build step keeps the state well-formed. -/
theorem stateWf_buildStepInline (v : RichTextValue) (st : BuildState) (i : Nat) (c : Char)
    (h : stateWf st = true) : stateWf (buildStepInline v st i c) = true := by
  unfold buildStepInline
  have h2 : stateWf (recordBoundaries v i (adjustFormats st (v.formats.getD i []))) = true :=
    stateWf_recordBoundaries v i _ (stateWf_adjustFormats st _ h)
  split
  · split
    · next rd heq =>
      exact stackWf_modifyTop _ _
        (fun f hf => frameWf_appendChild f _ hf (treeWf_replacementTree rd)) h2
    · exact stackWf_modifyTop _ _ (fun f hf => frameWf_appendChar f _ hf) h2
  · exact stackWf_modifyTop _ _ (fun f hf => frameWf_appendChar f _ hf) h2

/-- A build step keeps the state well-formed. -/
theorem stateWf_buildStep (mt : Option String) (v : RichTextValue) (st : BuildState) (i : Nat)
    (h : stateWf st = true) : stateWf (buildStep mt v st i) = true := by
  cases mt with
  | none => exact stateWf_buildStepInline v st i _ h
  | some t =>
    show stateWf (if v.text.toList.getD i objectReplacementChar = lineSeparatorChar then
        recordBoundaries v i (openParagraph t (closeTop (closeAllFormats st)))
      else buildStepInline v st i (v.text.toList.getD i objectReplacementChar)) = true
    by_cases hc : v.text.toList.getD i objectReplacementChar = lineSeparatorChar
    · rw [if_pos hc]
      exact stateWf_recordBoundaries v i _
        (stateWf_openParagraph t _ (stateWf_closeTop _ (stateWf_closeAllFormats st h)))
    · rw [if_neg hc]
      exact stateWf_buildStepInline v st i _ h

/-- The initial builder state is well-formed. -/
theorem stateWf_initState (mt : Option String) : stateWf (initState mt) = true := by
  cases mt <;> rfl

/-- Finishing a build keeps the state well-formed. -/
theorem stateWf_finalState (mt : Option String) (v : RichTextValue) (st : BuildState)
    (h : stateWf st = true) : stateWf (finalState mt v st) = true := by
  unfold finalState
  have h2 := stateWf_closeAllFormats _ (stateWf_recordBoundaries v v.text.length st h)
  split
  · exact stateWf_closeTop _ h2
  · exact h2

/-- The body read out of a well-formed state is well-formed. -/
theorem treeWf_resultOf (st : BuildState) (h : stateWf st = true) :
    treeWf (resultOf st).body = true := by
  unfold resultOf
  split
  · next f heq =>
    unfold stateWf at h
    rw [heq, stackWf, Bool.and_eq_true] at h
    rw [treeWf_toTree]
    exact h.1
  · simp [treeWf, namesNodup, treeListWf]

/-- Every tree built by `toDom` is well-formed: all of its elements carry
attributes with pairwise distinct names. -/
theorem treeWf_toDom (mt : Option String) (v : RichTextValue) :
    treeWf (toDom mt v).body = true := by
  unfold toDom
  split
  · simp [treeWf, namesNodup, treeListWf]
  · exact treeWf_resultOf _ (stateWf_finalState mt v _
      (foldl_preserve stateWf (buildStep mt v) _
        (fun s b hs => stateWf_buildStep mt v s b hs) _ (stateWf_initState mt)))

/-- C4: patching a tree against a freshly built copy of itself is the
identity — for any value and any two identity counters, the patch of one
load against the other returns the current tree with zero structural
changes; in particular the concrete test-to-test fixture keeps its content and moves
no node. -/
theorem applyValue_idempotent :
    (∀ (multilineTag : Option String) (v : RichTextValue) (n m : Nat),
       applyValue (withIds (toDom multilineTag v).body n).1
           (withIds (toDom multilineTag v).body m).1
         = (withIds (toDom multilineTag v).body m).1) ∧
    (applyValue futNopCase curNopCase = curNopCase ∧
     innerHTML (applyValue futNopCase curNopCase) = "test" ∧
     movedCount futNopCase.children (applyValue futNopCase curNopCase) = 0) := by
  constructor
  · intro mt v n m
    apply applyValue_strip
    · rw [strip_withIds]
      exact treeWf_toDom mt v
    · rw [strip_withIds, strip_withIds]
  · exact ⟨rfl, rfl, rfl⟩
